import Mathlib

/-
Verification of the NCDACdb downsizing and fixed-width decoding engines.

The definitions below are a shallow embedding of src/NCDACDB/downsize.py and
src/NCDACDB/build.py. SQLite tables are modelled as ordered column lists with
rows of TEXT values; the SQL statements the code issues are modelled by the
relational operation each one performs. SQLite accepts an IN clause whose
list is empty and evaluates it to false, so filtering by an empty identifier
list is an ordinary membership filter that keeps no row.
-/

namespace NCDACdb

/-- A database table: ordered column names and rows of text values. Models an
SQLite table whose stored values are TEXT, as produced by build_sqlite_db. -/
structure Table where
  cols : List String
  rows : List (List String)
deriving DecidableEq, Repr

/-- A database: named tables in creation order, as sqlite_master lists them. -/
abbrev Store := List (String × Table)

/-- Lexicographic comparison of character lists; models the comparison SQLite
applies to TEXT values under the default BINARY collation, which for the
ASCII date strings used here is plain byte order. -/
def lexLe : List Char → List Char → Bool
  | [], _ => true
  | _ :: _, [] => false
  | a :: as, b :: bs => if a < b then true else if a = b then lexLe as bs else false

/-- String comparison used by the WHERE clause of extract_ids_by_update. -/
def strLe (a b : String) : Bool := lexLe a.data b.data

/-- Find a table by name, modelling SQL addressing a table; none models the
sqlite3 OperationalError raised for a missing table. -/
def lookupTable (s : Store) (n : String) : Option Table :=
  (s.find? (fun p => p.1 = n)).map (fun p => p.2)

/-- Column zero of every row, modelling the Python comprehension that takes
row[0] of each fetched row; indexing an empty tuple raises, hence none. -/
def firstColumn : List (List String) → Option (List String)
  | [] => some []
  | r :: rs =>
    match r.head? with
    | none => none
    | some v => (firstColumn rs).map (fun t => v :: t)

/-- Shallow embedding of extract_ids_by_update from downsize.py: run
SELECT star FROM table WHERE variable GE date_filter against the store and
keep column zero of every returned row, in row order and without any
deduplication. Returns none when the table or the column is absent. -/
def extract_ids_by_update (db : Store) (date_filter : String)
    (table : String := "OFNT3AA1_data") (variable_ : String := "DTOFUPDT") :
    Option (List String) :=
  match lookupTable db table with
  | none => none
  | some t =>
    match t.cols.findIdx? (fun c => c = variable_) with
    | none => none
    | some i => firstColumn (t.rows.filter (fun r => strLe date_filter (r.getD i "")))

/-- Python str.endswith, modelled on the underlying character list. -/
def strEndsWith (s post : String) : Bool := post.data.isSuffixOf s.data

/-- Shallow embedding of extract_datatables_and_ids from downsize.py: walk
sqlite_master in order and map each selected table name to the name of its
first declared column, as PRAGMA table_info reports it. Returns none when a
selected table has no columns (fetchone would yield None and the subscript
would raise). -/
def extract_datatables_and_ids (db : Store) (only_data : Bool := true) :
    Option (List (String × String)) :=
  match db with
  | [] => some []
  | (n, t) :: rest =>
    if only_data && !(strEndsWith n "_data") then extract_datatables_and_ids rest only_data
    else
      match t.cols.head? with
      | none => none
      | some c => (extract_datatables_and_ids rest only_data).map (fun out => (n, c) :: out)

/-- Failure modes of downsize_by_update: the destination-exists assertion
and an SQLite error for a missing table or column. -/
inductive DownsizeError where
  | destinationExists
  | sqlError
deriving DecidableEq, Repr

/-- One CREATE TABLE name AS SELECT star FROM orig.name WHERE varname IN
(wanted) step. An empty wanted list yields the SQL text IN (), which SQLite
accepts and evaluates to false on every row, so the created copy is simply
empty. -/
def createFiltered (src : Store) (wanted : List String) (tname varname : String) :
    Except DownsizeError Table :=
  match lookupTable src tname with
  | none => .error .sqlError
  | some t =>
    match t.cols.findIdx? (fun c => c = varname) with
    | none => .error .sqlError
    | some i => .ok ⟨t.cols, t.rows.filter (fun r => wanted.contains (r.getD i ""))⟩

/-- One iteration of the cloning loop of downsize_by_update: a filtered copy
for a table whose name carries the fact suffix, a verbatim copy otherwise. -/
def cloneStep (src : Store) (wanted : List String) (n v : String) :
    Except DownsizeError Table :=
  if strEndsWith n "_data" then createFiltered src wanted n v
  else
    match lookupTable src n with
    | none => .error .sqlError
    | some t => .ok t

/-- The table-cloning loop of downsize_by_update: for each (table, varname)
pair create a filtered copy when the name carries the fact suffix, else a
verbatim copy. On the first failing CREATE the loop stops, leaving in the
destination exactly the tables already created. -/
def cloneTables (src : Store) (wanted : List String) :
    List (String × String) → Store → Store × Option DownsizeError
  | [], dest => (dest, none)
  | (n, v) :: rest, dest =>
    match cloneStep src wanted n v with
    | .error e => (dest, some e)
    | .ok t => cloneTables src wanted rest (dest ++ [(n, t)])

/-- Shallow embedding of downsize_by_update from downsize.py. The flag
dest_exists models os.path.exists on the output path; the returned store is
the content of the destination database when the function returns or raises,
paired with the error raised, if any. -/
def downsize_by_update (dest_exists : Bool) (src : Store) (date_filter : String) :
    Store × Option DownsizeError :=
  if dest_exists then ([], some .destinationExists)
  else
    match extract_ids_by_update src date_filter "OFNT3AA1_data" "DTOFUPDT" with
    | none => ([], some .sqlError)
    | some wanted =>
      match extract_datatables_and_ids src false with
      | none => ([], some .sqlError)
      | some pairs => cloneTables src wanted pairs []

/-- Membership filter on the first column of a table; the specification-side
description of what the IN clause does to a fact table. -/
def factFilter (wanted : List String) (t : Table) : Table :=
  ⟨t.cols, t.rows.filter (fun r => wanted.contains (r.getD 0 ""))⟩

/-- Specification-side description of the whole clone: every table keeps its
name, fact tables are filtered by identifier membership, all other tables
are copied verbatim. -/
def cloneSpec (wanted : List String) (src : Store) : Store :=
  src.map (fun p => (p.1, if strEndsWith p.1 "_data" then factFilter wanted p.2 else p.2))

/- Concrete stores used to instantiate the theorems below. -/

def demoParent : Table :=
  ⟨["CMDORNUM", "DTOFUPDT"], [["A", "2020-01-01"], ["B", "2023-06-01"]]⟩

def demoStore : Store := [("OFNT3AA1_data", demoParent)]

def dupParent : Table :=
  ⟨["CMDORNUM", "DTOFUPDT"], [["A", "2023-01-01"], ["A", "2023-02-02"]]⟩

def dupStore : Store := [("OFNT3AA1_data", dupParent)]

def dupFact : Table := ⟨["CMDORNUM", "VAL"], [["A", "1"], ["B", "2"]]⟩

def demoStore2 : Store :=
  [("OFNT3AA1_data", demoParent),
   ("INMT_data", ⟨["CMDORNUM", "VAL"], [["A", "1"], ["B", "2"], ["C", "3"]]⟩),
   ("INMT_desc", ⟨["Name", "Description"], [["CMDORNUM", "id"]]⟩)]

def dupStoreNoMatch : Store :=
  [("OFNT3AA1_data", ⟨["CMDORNUM", "DTOFUPDT"], [["A", "2020-01-01"]]⟩)]

def c9Store : Store :=
  [("PRE_desc", ⟨["Name", "Description"], [["CMDORNUM", "id"]]⟩),
   ("OFNT3AA1_data", ⟨["CMDORNUM", "DTOFUPDT"], [["A", "2020-01-01"]]⟩)]

/- Helper lemmas. -/

lemma firstColumn_eq (rs : List (List String)) (h : ∀ r ∈ rs, r ≠ []) :
    firstColumn rs = some (rs.map (fun r => r.headD "")) := by
  induction rs with
  | nil => rfl
  | cons r rs ih =>
    cases r with
    | nil => exact absurd rfl (h [] (List.mem_cons_self _ _))
    | cons a as =>
      simp only [firstColumn, List.head?, List.map_cons, List.headD]
      rw [ih (fun x hx => h x (List.mem_cons_of_mem _ hx))]
      rfl

/-- C1: for every parent table and threshold, extract_ids_by_update returns
exactly the first-column values of the rows whose update column is greater
than or equal to the threshold under lexicographic string comparison, in row
order. The concrete instance of the claim is the witness theorem. -/
theorem extract_ids_by_update_filters (db : Store) (f tab var : String)
    (t : Table) (i : Nat)
    (ht : lookupTable db tab = some t)
    (hi : t.cols.findIdx? (fun c => c = var) = some i)
    (hr : ∀ r ∈ t.rows, r ≠ []) :
    extract_ids_by_update db f tab var =
      some ((t.rows.filter (fun r => strLe f (r.getD i ""))).map (fun r => r.headD "")) := by
  simp only [extract_ids_by_update, ht, hi]
  exact firstColumn_eq _ (fun r hm => hr r (List.mem_of_mem_filter hm))

/-- C1 witness: on a parent table with rows (A, 2020-01-01) and
(B, 2023-06-01) and threshold 2022-01-01 the extracted identifiers are
exactly the singleton B. -/
theorem extract_ids_by_update_filters_witness :
    extract_ids_by_update demoStore "2022-01-01" "OFNT3AA1_data" "DTOFUPDT" = some ["B"] :=
  (extract_ids_by_update_filters demoStore "2022-01-01" "OFNT3AA1_data" "DTOFUPDT"
      demoParent 1 (by decide) (by decide) (by decide)).trans (by decide)

/-- C3 counterexample: a parent table with two matching rows that share the
first-column value A makes extract_ids_by_update return the list A, A, which
contains a duplicate, so the collection passed to the clone engine is not
deduplicated. -/
theorem extract_ids_by_update_duplicates :
    extract_ids_by_update dupStore "2020-01-01" "OFNT3AA1_data" "DTOFUPDT" = some ["A", "A"] ∧
    ¬ (["A", "A"] : List String).Nodup := by decide

/-- C3 amended: the identifier collection has one entry per matching parent
row, so it can contain duplicates; list membership nevertheless coincides
with membership in the deduplicated list, so the downstream IN filter is
unaffected by the missing deduplication. -/
theorem extract_ids_not_deduplicated (db : Store) (f tab var : String)
    (t : Table) (i : Nat) (ids : List String)
    (ht : lookupTable db tab = some t)
    (hi : t.cols.findIdx? (fun c => c = var) = some i)
    (hr : ∀ r ∈ t.rows, r ≠ [])
    (hids : extract_ids_by_update db f tab var = some ids) :
    ids.length = (t.rows.filter (fun r => strLe f (r.getD i ""))).length ∧
    ∀ tb : Table, factFilter ids tb = factFilter ids.dedup tb := by
  have h := (extract_ids_by_update_filters db f tab var t i ht hi hr).symm.trans hids
  have hids' : ids = (t.rows.filter (fun r => strLe f (r.getD i ""))).map (fun r => r.headD "") :=
    (Option.some.inj h).symm
  constructor
  · rw [hids', List.length_map]
  · intro tb
    unfold factFilter
    congr 1
    apply List.filter_congr
    intro r hmem
    have hco : ∀ (l : List String) (x : String), l.contains x = true ↔ x ∈ l := by
      intro l x
      constructor
      · intro hcx
        simpa using hcx
      · intro hx
        simpa using hx
    by_cases hx : (r.getD 0 "") ∈ ids
    · rw [(hco ids _).mpr hx, ((hco ids.dedup _).mpr (List.mem_dedup.mpr hx)).symm]
    · have h1 : ids.contains (r.getD 0 "") = false := by
        cases hc1 : ids.contains (r.getD 0 "") with
        | false => rfl
        | true => exact absurd ((hco ids _).mp hc1) hx
      have h2 : ids.dedup.contains (r.getD 0 "") = false := by
        cases hc2 : ids.dedup.contains (r.getD 0 "") with
        | false => rfl
        | true => exact absurd (List.mem_dedup.mp ((hco ids.dedup _).mp hc2)) hx
      rw [h1, h2]

/-- C3 amended witness: on the duplicate-identifier parent table the
extracted list A, A has one entry per matching row, and filtering a fact
table with it gives the same result as filtering with its deduplication. -/
theorem extract_ids_not_deduplicated_witness :
    (["A", "A"] : List String).length =
      (dupParent.rows.filter (fun r => strLe "2020-01-01" (r.getD 1 ""))).length ∧
    factFilter ["A", "A"] dupFact = factFilter (["A", "A"] : List String).dedup dupFact :=
  have h := extract_ids_not_deduplicated dupStore "2020-01-01" "OFNT3AA1_data" "DTOFUPDT"
    dupParent 1 ["A", "A"] (by decide) (by decide) (by decide) (by decide)
  ⟨h.1, h.2 dupFact⟩

/-- C4: when the destination store already exists, downsize_by_update fails
with the destination-exists error before any work begins and creates zero
tables in the destination, for every source store and every threshold. -/
theorem downsize_by_update_dest_exists (src : Store) (f : String) :
    downsize_by_update true src f = ([], some DownsizeError.destinationExists) := rfl

lemma lookupTable_of_mem (s : Store) (n : String) (t : Table)
    (hnd : (s.map Prod.fst).Nodup) (hm : (n, t) ∈ s) :
    lookupTable s n = some t := by
  induction s with
  | nil => cases hm
  | cons hd tl ih =>
    rcases List.mem_cons.mp hm with heq | htl
    · subst heq
      simp [lookupTable, List.find?]
    · have hne : hd.1 ≠ n := by
        intro hcontra
        have : n ∈ tl.map Prod.fst := List.mem_map.mpr ⟨(n, t), htl, rfl⟩
        rw [List.map_cons, List.nodup_cons] at hnd
        exact hnd.1 (hcontra ▸ this)
      have := ih (by rw [List.map_cons, List.nodup_cons] at hnd; exact hnd.2) htl
      simpa [lookupTable, List.find?, hne] using this

lemma extract_dt_all (s : Store) (hc : ∀ p ∈ s, p.2.cols ≠ []) :
    extract_datatables_and_ids s false =
      some (s.map (fun p => (p.1, p.2.cols.headD ""))) := by
  induction s with
  | nil => rfl
  | cons hd tl ih =>
    obtain ⟨n, t⟩ := hd
    have hcols := hc (n, t) (List.mem_cons_self _ _)
    cases hcc : t.cols with
    | nil => exact absurd hcc hcols
    | cons c cs =>
      simp only [extract_datatables_and_ids, Bool.false_and, Bool.false_eq_true,
        if_false, hcc, List.head?, List.map_cons]
      rw [ih (fun p hp => hc p (List.mem_cons_of_mem _ hp))]
      simp [List.headD, hcc]

lemma cloneTables_ok (src : Store) (wanted : List String)
    (hnd : (src.map Prod.fst).Nodup) :
    ∀ (sub : Store) (acc : Store), (∀ p ∈ sub, p ∈ src) → (∀ p ∈ sub, p.2.cols ≠ []) →
      cloneTables src wanted (sub.map (fun p => (p.1, p.2.cols.headD ""))) acc =
        (acc ++ cloneSpec wanted sub, none) := by
  intro sub
  induction sub with
  | nil =>
    intro acc _ _
    simp [cloneTables, cloneSpec]
  | cons hd tl ih =>
    intro acc hmem hcols
    obtain ⟨n, t⟩ := hd
    have hmem0 : ((n, t) : String × Table) ∈ src := hmem _ (List.mem_cons_self _ _)
    have hcols0 : t.cols ≠ [] := hcols _ (List.mem_cons_self _ _)
    have hlook : lookupTable src n = some t := lookupTable_of_mem src n t hnd hmem0
    have hidx : t.cols.findIdx? (fun x => x = t.cols.headD "") = some 0 := by
      cases hcc : t.cols with
      | nil => exact absurd hcc hcols0
      | cons c cs => simp [List.findIdx?, List.headD]
    have hstep : cloneStep src wanted n (t.cols.headD "") =
        Except.ok (if strEndsWith n "_data" then factFilter wanted t else t) := by
      by_cases hfact : strEndsWith n "_data" = true
      · simp only [cloneStep, hfact, if_true, createFiltered, hlook, hidx]
        rfl
      · have hfact2 : strEndsWith n "_data" = false := by
          cases hb : strEndsWith n "_data" with
          | false => rfl
          | true => exact absurd hb hfact
        simp [cloneStep, hfact2, hlook]
    have hrec := ih (acc ++ [(n, if strEndsWith n "_data" then factFilter wanted t else t)])
      (fun p hp => hmem p (List.mem_cons_of_mem _ hp))
      (fun p hp => hcols p (List.mem_cons_of_mem _ hp))
    simp only [List.map_cons, cloneTables, hstep]
    rw [hrec]
    simp [cloneSpec, List.append_assoc]

/-- C2: for every well-formed source store (unique table names, no table
without columns) whose parent-table extraction succeeds, downsize_by_update
creates in the destination a same-named table for each table of the source:
tables whose name ends in _data contain exactly the source rows whose
identifier-column value is a member of the extracted identifier collection,
and every other table is a verbatim copy (cloneSpec). This holds for an
empty collection as well, since SQLite evaluates an empty IN list to false. -/
theorem downsize_by_update_clones (src : Store) (f : String) (wanted : List String)
    (hnd : (src.map Prod.fst).Nodup)
    (hc : ∀ p ∈ src, p.2.cols ≠ [])
    (hr : extract_ids_by_update src f "OFNT3AA1_data" "DTOFUPDT" = some wanted) :
    downsize_by_update false src f = (cloneSpec wanted src, none) := by
  simp only [downsize_by_update, Bool.false_eq_true, if_false, hr, extract_dt_all src hc]
  have := cloneTables_ok src wanted hnd src [] (fun p hp => hp) hc
  simpa using this

/-- C2 witness: a three-table store (parent, one further fact table, one
description table) cloned with threshold 2022-01-01 keeps only the rows
whose identifier is B in the fact tables and copies the description table
verbatim. -/
theorem downsize_by_update_clones_witness :
    downsize_by_update false demoStore2 "2022-01-01" =
      ([("OFNT3AA1_data", ⟨["CMDORNUM", "DTOFUPDT"], [["B", "2023-06-01"]]⟩),
        ("INMT_data", ⟨["CMDORNUM", "VAL"], [["B", "2"]]⟩),
        ("INMT_desc", ⟨["Name", "Description"], [["CMDORNUM", "id"]]⟩)], none) :=
  (downsize_by_update_clones demoStore2 "2022-01-01" ["B"]
      (by decide) (by decide) (by decide)).trans (by decide)

/-- C9 counterexample: on a source store whose parent table has no row at or
after the threshold, the operation does not fail: SQLite accepts the empty
IN list and evaluates it to false, so the clone completes with no error and
the destination holds the fact table, present but empty, refuting the
claimed failure and partial destination. -/
theorem downsize_by_update_empty_ids_cex :
    downsize_by_update false dupStoreNoMatch "2024-01-01" =
      ([("OFNT3AA1_data", ⟨["CMDORNUM", "DTOFUPDT"], []⟩)], none) := by decide

/-- C9 amended: when no parent row meets the threshold the identifier list
is empty; the CREATE statement for each fact table carries an empty IN list,
which SQLite accepts and evaluates to false, so the operation succeeds and
produces a destination store in which every fact table is present but
empty and every non-fact table is a full copy. -/
theorem downsize_by_update_empty_ids (src : Store) (f : String)
    (hnd : (src.map Prod.fst).Nodup)
    (hc : ∀ p ∈ src, p.2.cols ≠ [])
    (hr : extract_ids_by_update src f "OFNT3AA1_data" "DTOFUPDT" = some []) :
    downsize_by_update false src f = (cloneSpec [] src, none) ∧
    ∀ p ∈ cloneSpec [] src, strEndsWith p.1 "_data" = true → p.2.rows = [] := by
  constructor
  · simp only [downsize_by_update, Bool.false_eq_true, if_false, hr, extract_dt_all src hc]
    have := cloneTables_ok src [] hnd src [] (fun p hp => hp) hc
    simpa using this
  · intro p hp hfact
    unfold cloneSpec at hp
    rcases List.mem_map.mp hp with ⟨q, hq, rfl⟩
    simp only at hfact
    simp [hfact, factFilter]

/-- C9 amended witness: a store holding a description table followed by a
parent fact table with no matching rows clones completely, with the
description table copied in full and the fact table created empty. -/
theorem downsize_by_update_empty_ids_witness :
    downsize_by_update false c9Store "2024-01-01" =
      ([("PRE_desc", ⟨["Name", "Description"], [["CMDORNUM", "id"]]⟩),
        ("OFNT3AA1_data", ⟨["CMDORNUM", "DTOFUPDT"], []⟩)], none) :=
  ((downsize_by_update_empty_ids c9Store "2024-01-01"
      (by decide) (by decide) (by decide)).1).trans (by decide)

/-
Model of build.py: the schema parser (preprocess_des_file), the date
classifier (get_date_cols) and the fixed-width decoder (preprocess_dat_file).
-/

/-- ASCII whitespace as matched by the regex class backslash-s and stripped
by the Python str.strip method. -/
def pyIsSpace (c : Char) : Bool :=
  c = ' ' || c = '\t' || c = '\n' || c = '\r' || c = '\x0b' || c = '\x0c'

/-- Maximal runs of characters with equal whitespace-ness, in order. -/
def wsRuns : List Char → List (Bool × List Char)
  | [] => []
  | c :: cs =>
    match wsRuns cs with
    | [] => [(pyIsSpace c, [c])]
    | (b, g) :: rest =>
      if pyIsSpace c = b then (b, c :: g) :: rest
      else (pyIsSpace c, [c]) :: (b, g) :: rest

/-- Rebuild the line from its runs, replacing every interior whitespace run
of three or more characters by the separator. The first argument tells
whether the run under consideration is the first one; a run that is first or
last has no non-whitespace neighbour on that side, so the lookbehind or
lookahead of the regex fails there and the run is kept. -/
def renderRuns (sep : Char) : Bool → List (Bool × List Char) → List Char
  | _, [] => []
  | isFirst, (b, g) :: rest =>
    (if b && decide (3 ≤ g.length) && !isFirst && !rest.isEmpty then [sep] else g) ++
      renderRuns sep false rest

/-- The default substitution of preprocess_des_file: replace every run of
three or more whitespace characters that is both preceded and followed by a
non-whitespace character with a single separator. -/
def pySub3 (sep : Char) (cs : List Char) : List Char := renderRuns sep true (wsRuns cs)

/-- Python str.strip with no argument: drop whitespace from both ends. -/
def pyStrip (cs : List Char) : List Char :=
  ((cs.dropWhile pyIsSpace).reverse.dropWhile pyIsSpace).reverse

/-- Python str.split on a single-character separator: always returns at
least one (possibly empty) field. -/
def splitChar (sep : Char) (cs : List Char) : List (List Char) :=
  cs.foldr
    (fun c acc =>
      match acc with
      | [] => [[c]]
      | cur :: rest => if c = sep then [] :: cur :: rest else (c :: cur) :: rest)
    [[]]

/-- The per-line processing of preprocess_des_file: apply the whitespace-run
substitution, strip the result, then split it on the separator. -/
def parseDesLine (sep : Char) (line : String) : List String :=
  (splitChar sep (pyStrip (pySub3 sep line.data))).map (fun cs => String.mk cs)

/-- Pad a parsed row with null markers up to the frame width, as the pandas
DataFrame constructor does with rows shorter than the widest one. -/
def padTo (w : Nat) (r : List String) : List (Option String) :=
  r.map Option.some ++ List.replicate (w - r.length) none

/-- Width of the pandas DataFrame built from the parsed rows: the maximum
row length. -/
def maxLen (rows : List (List String)) : Nat :=
  rows.foldl (fun m r => max m r.length) 0

/-- Failures of preprocess_des_file: the ValueError pandas raises when the
frame width differs from the number of supplied column names, and the
IndexError of reading row zero of an empty frame. -/
inductive DesError where
  | columnMismatch
  | emptyFrame
deriving DecidableEq, Repr

/-- The default names argument of preprocess_des_file. -/
def desNames : List String := ["Name", "Description", "Type", "Start", "Length"]

/-- Shallow embedding of preprocess_des_file from build.py: parse every line,
build a pandas DataFrame from the rows (width is the maximum row length,
shorter rows padded with None), fail when that width differs from the number
of supplied names, then drop the first row exactly when its padded values
equal the names. -/
def preprocess_des_file (lines : List String) (sep : Char := '|')
    (names : List String := desNames) :
    Except DesError (List (List (Option String))) :=
  let rows := lines.map (parseDesLine sep)
  let w := maxLen rows
  if w = names.length then
    match rows with
    | [] => .error .emptyFrame
    | r0 :: rest =>
      if padTo w r0 = names.map Option.some then .ok (rest.map (padTo w))
      else .ok (padTo w r0 :: rest.map (padTo w))
  else .error .columnMismatch

/-- Specification-side description of the rows preprocess_des_file returns
on success: every line parsed and padded to the names width, with the first
row dropped exactly when it equals the names. -/
def desRows (lines : List String) (sep : Char) (names : List String) :
    List (List (Option String)) :=
  match lines.map (fun l => padTo names.length (parseDesLine sep l)) with
  | [] => []
  | r0 :: rest => if r0 = names.map Option.some then rest else r0 :: rest

/-- One parsed schema row: the five columns of a des file. The decoder reads
Name, Start and Length; the date classifier reads Name and Type. Start is
the one-based byte offset of the source convention; the model assumes it is
at least one, as the des format prescribes. -/
structure FieldSpec where
  name : String
  desc : String
  ftype : String
  start : Nat
  length : Nat
deriving DecidableEq, Repr

/-- A calendar date. -/
structure CDate where
  year : Nat
  month : Nat
  day : Nat
deriving DecidableEq, Repr

/-- A decoded field value: a raw string, a coerced calendar date, or the
null marker that pandas NaT turns into for an unparsable date. -/
inductive Value where
  | str : String → Value
  | date : CDate → Value
  | null
deriving DecidableEq, Repr

def toNatDigits (cs : List Char) : Nat :=
  cs.foldl (fun n c => 10 * n + (c.toNat - 48)) 0

def isLeap (y : Nat) : Bool := (y % 4 = 0 && ¬ y % 100 = 0) || y % 400 = 0

def daysInMonth (y m : Nat) : Nat :=
  if m = 2 then (if isLeap y then 29 else 28)
  else if m = 4 || m = 6 || m = 9 || m = 11 then 30
  else 31

def mkValidDate (y m d : Nat) : Option CDate :=
  if 1 ≤ m && m ≤ 12 && 1 ≤ d && d ≤ daysInMonth y m then some ⟨y, m, d⟩ else none

/-- Modelled from the spec: the best-effort locale-agnostic date parser the
decoder delegates to, which in the source is the external library call
pandas.to_datetime with errors set to coerce followed by date extraction;
that library is not part of this repository. An eight-digit string is read
as YYYYMMDD and a dashed ten-character string as YYYY-MM-DD when they denote
valid calendar dates; every other input yields none, the NaT marker. -/
def pd_to_datetime_date (s : String) : Option CDate :=
  let cs := s.data
  if cs.length = 8 && cs.all Char.isDigit then
    mkValidDate (toNatDigits (cs.take 4)) (toNatDigits ((cs.drop 4).take 2))
      (toNatDigits (cs.drop 6))
  else if cs.length = 10 && (cs.take 4).all Char.isDigit && cs.getD 4 ' ' = '-' &&
      ((cs.drop 5).take 2).all Char.isDigit && cs.getD 7 ' ' = '-' &&
      ((cs.drop 8).take 2).all Char.isDigit then
    mkValidDate (toNatDigits (cs.take 4)) (toNatDigits ((cs.drop 5).take 2))
      (toNatDigits ((cs.drop 8).take 2))
  else none

/-- The slice the decoder takes for a field: the line is stripped with the
Python str.strip method (both ends), then sliced with the zero-based start
and the length, with the Python clamping slice semantics. -/
def rawSlice (line : String) (f : FieldSpec) : String :=
  String.mk (((pyStrip line.data).take (f.start - 1 + f.length)).drop (f.start - 1))

/-- Turn the result of the date parser into a field value: a date on
success, the null marker on failure. -/
def coercedDate (o : Option CDate) : Value :=
  match o with
  | some d => Value.date d
  | none => Value.null

/-- Python dict assignment d[k] = v on an insertion-ordered dictionary:
replace the value in place when the key exists, append otherwise. -/
def dictInsert {α : Type} (k : String) (v : α) (d : List (String × α)) :
    List (String × α) :=
  if d.any (fun p => p.1 = k) then d.map (fun p => if p.1 = k then (k, v) else p)
  else d ++ [(k, v)]

/-- Python dict read d.get(k): the value stored at the key, if any. -/
def dictLookup {α : Type} (d : List (String × α)) (n : String) : Option α :=
  (d.find? (fun p => p.1 = n)).map (fun p => p.2)

/-- The value the decoder computes for one field of one line: the date
coercion when the field name is a key of the date dictionary and fix_dates
is set, the raw slice otherwise. -/
def decodeValue (dt : List (String × String)) (fix_dates : Bool) (line : String)
    (f : FieldSpec) : Value :=
  if dt.any (fun p => p.1 = f.name) && fix_dates then
    coercedDate (pd_to_datetime_date (rawSlice line f))
  else Value.str (rawSlice line f)

/-- The inner loop of preprocess_dat_file: walk the schema rows in order and
assign temp[name] = value into a Python dict, so a repeated name overwrites
the earlier entry. -/
def decodeLine (schema : List FieldSpec) (dt : List (String × String))
    (fix_dates : Bool) (line : String) : List (String × Value) :=
  schema.foldl (fun temp f => dictInsert f.name (decodeValue dt fix_dates line f) temp) []

/-- The name-to-type dictionary built by the first loop of get_date_cols:
out[name] = type for every schema row in order, a repeated name keeping only
the last declared type. -/
def typesDict (schema : List FieldSpec) : List (String × String) :=
  schema.foldl (fun d g => dictInsert g.name g.ftype d) []

/-- Shallow embedding of get_date_cols from build.py: the name-to-type
dictionary restricted to entries whose type equals the marker value. -/
def get_date_cols (schema : List FieldSpec) (value : String := "DATE") :
    List (String × String) :=
  (typesDict schema).filter (fun p => p.2 = value)

/-- Shallow embedding of the decoding loop of preprocess_dat_file from
build.py: classify the date fields and decode each line (optionally only the
first subset lines) into a record. -/
def preprocess_dat_file (schema : List FieldSpec) (lines : List String)
    (fix_dates : Bool := true) (subset : Option Nat := none) :
    List (List (String × Value)) :=
  let dt := get_date_cols schema "DATE"
  (match subset with
   | none => lines
   | some k => lines.take k).map (fun l => decodeLine schema dt fix_dates l)

/- Dictionary lemmas: reading a Python dict after an assignment. -/

lemma find?_map_update {α : Type} (k n : String) (v : α) (h : ¬ n = k)
    (tl : List (String × α)) :
    (tl.map (fun p => if p.1 = k then (k, v) else p)).find? (fun p => p.1 = n) =
      tl.find? (fun p => p.1 = n) := by
  induction tl with
  | nil => rfl
  | cons hd tl ih =>
    by_cases hk : hd.1 = k
    · rw [List.map_cons, if_pos hk]
      rw [List.find?_cons_of_neg _ (by simp; intro hh; exact h hh.symm),
        List.find?_cons_of_neg _ (by simp [hk]; intro hh; exact h hh.symm)]
      exact ih
    · rw [List.map_cons, if_neg hk]
      by_cases hn : hd.1 = n
      · rw [List.find?_cons_of_pos _ (by simp [hn]), List.find?_cons_of_pos _ (by simp [hn])]
      · rw [List.find?_cons_of_neg _ (by simp [hn]), List.find?_cons_of_neg _ (by simp [hn])]
        exact ih

lemma find?_map_update_hit {α : Type} (k : String) (v : α) (d : List (String × α))
    (h : d.any (fun p => p.1 = k) = true) :
    (d.map (fun p => if p.1 = k then (k, v) else p)).find? (fun p => p.1 = k) =
      some (k, v) := by
  induction d with
  | nil => simp at h
  | cons hd tl ih =>
    by_cases hk : hd.1 = k
    · rw [List.map_cons, if_pos hk, List.find?_cons_of_pos _ (by simp)]
    · have h2 : tl.any (fun p => p.1 = k) = true := by
        simp only [List.any_cons, Bool.or_eq_true] at h
        rcases h with h | h
        · exact absurd (by simpa using h) hk
        · exact h
      rw [List.map_cons, if_neg hk, List.find?_cons_of_neg _ (by simp [hk])]
      exact ih h2

lemma find?_append_cases {α : Type} (p : α → Bool) (l1 l2 : List α) :
    (l1 ++ l2).find? p =
      (match l1.find? p with
       | some x => some x
       | none => l2.find? p) := by
  induction l1 with
  | nil => rfl
  | cons hd tl ih =>
    by_cases hp : p hd = true
    · rw [List.cons_append, List.find?_cons_of_pos _ hp, List.find?_cons_of_pos _ hp]
    · rw [List.cons_append, List.find?_cons_of_neg _ hp, List.find?_cons_of_neg _ hp]
      exact ih

lemma dictLookup_insert {α : Type} (k n : String) (v : α) (d : List (String × α)) :
    dictLookup (dictInsert k v d) n = if n = k then some v else dictLookup d n := by
  by_cases hany : d.any (fun p => p.1 = k) = true
  · unfold dictInsert
    rw [if_pos hany]
    by_cases hnk : n = k
    · rw [if_pos hnk]
      unfold dictLookup
      rw [hnk, find?_map_update_hit k v d hany]
      rfl
    · unfold dictLookup
      rw [find?_map_update k n v hnk d, if_neg hnk]
  · unfold dictInsert
    rw [if_neg hany]
    unfold dictLookup
    rw [find?_append_cases]
    by_cases hnk : n = k
    · subst hnk
      have hfd : d.find? (fun p => p.1 = n) = none := by
        rw [List.find?_eq_none]
        intro x hx
        simp only [decide_eq_true_eq]
        intro hxn
        exact hany (List.any_eq_true.mpr ⟨x, hx, by simp [hxn]⟩)
      rw [hfd]
      simp [List.find?]
    · cases hfd : d.find? (fun p => p.1 = n) with
      | some x => simp [hfd, hnk]
      | none =>
        simp only [hfd]
        rw [List.find?_cons_of_neg _ (by simp; intro hh; exact hnk hh.symm)]
        simp [hnk]

lemma dictOfFold_lookup {α : Type} (val : FieldSpec → α) (schema : List FieldSpec)
    (n : String) :
    dictLookup (schema.foldl (fun d g => dictInsert g.name (val g) d) []) n =
      ((schema.filter (fun g => g.name = n)).getLast?).map val := by
  induction schema using List.reverseRecOn with
  | nil => rfl
  | append_singleton xs x ih =>
    rw [List.foldl_append]
    simp only [List.foldl_cons, List.foldl_nil]
    rw [dictLookup_insert, List.filter_append]
    by_cases hx : x.name = n
    · have hfx : List.filter (fun g => decide (g.name = n)) [x] = [x] := by simp [hx]
      rw [hfx, List.getLast?_concat, if_pos hx.symm]
      rfl
    · have hfx : List.filter (fun g => decide (g.name = n)) [x] = [] := by simp [hx]
      rw [hfx, List.append_nil, if_neg (fun hh => hx hh.symm)]
      exact ih

lemma dictInsert_keys_any_true {α : Type} (k : String) (v : α) (d : List (String × α))
    (h : d.any (fun p => p.1 = k) = true) :
    (dictInsert k v d).map Prod.fst = d.map Prod.fst := by
  unfold dictInsert
  rw [if_pos h, List.map_map]
  apply List.map_congr_left
  intro p hp
  by_cases hk : p.1 = k <;> simp [hk]

lemma dictInsert_keys_any_false {α : Type} (k : String) (v : α) (d : List (String × α))
    (h : ¬ d.any (fun p => p.1 = k) = true) :
    (dictInsert k v d).map Prod.fst = d.map Prod.fst ++ [k] := by
  unfold dictInsert
  rw [if_neg h, List.map_append]
  rfl

lemma dictInsert_keys_nodup {α : Type} (k : String) (v : α) (d : List (String × α))
    (h : (d.map Prod.fst).Nodup) : ((dictInsert k v d).map Prod.fst).Nodup := by
  by_cases hany : d.any (fun p => p.1 = k) = true
  · rw [dictInsert_keys_any_true k v d hany]
    exact h
  · rw [dictInsert_keys_any_false k v d hany]
    have hk : k ∉ d.map Prod.fst := by
      intro hmem
      rcases List.mem_map.mp hmem with ⟨p, hp, hpk⟩
      exact hany (List.any_eq_true.mpr ⟨p, hp, by simp [hpk]⟩)
    rw [List.nodup_append]
    refine ⟨h, List.nodup_singleton k, ?_⟩
    intro a ha hb
    have hak : a = k := by simpa using hb
    exact hk (hak ▸ ha)

lemma foldDict_keys_nodup {α : Type} (val : FieldSpec → α) (schema : List FieldSpec) :
    ∀ acc : List (String × α), (acc.map Prod.fst).Nodup →
      ((schema.foldl (fun d g => dictInsert g.name (val g) d) acc).map Prod.fst).Nodup := by
  induction schema with
  | nil => intro acc h; exact h
  | cons g gs ih =>
    intro acc h
    exact ih _ (dictInsert_keys_nodup _ _ _ h)

lemma mem_keys_of_lookup {α : Type} (d : List (String × α)) (n : String) (v : α)
    (h : dictLookup d n = some v) : n ∈ d.map Prod.fst := by
  unfold dictLookup at h
  cases hf : d.find? (fun p => p.1 = n) with
  | none => rw [hf] at h; cases h
  | some p =>
    have hp := List.mem_of_find?_eq_some hf
    have hpred := List.find?_some hf
    simp only [decide_eq_true_eq] at hpred
    exact List.mem_map.mpr ⟨p, hp, hpred⟩

/- Width lemmas for the pandas frame model. -/

lemma maxLen_aux (rows : List (List String)) (k : Nat)
    (h : ∀ r ∈ rows, r.length = k) :
    ∀ a, rows.foldl (fun m r => max m r.length) a = if rows = [] then a else max a k := by
  induction rows with
  | nil => intro a; simp
  | cons r rs ih =>
    intro a
    have hr := h r (List.mem_cons_self _ _)
    simp only [List.foldl_cons, hr]
    rw [ih (fun x hx => h x (List.mem_cons_of_mem _ hx)) (max a k)]
    by_cases hrs : rs = []
    · simp [hrs]
    · simp only [hrs, if_false, List.cons_ne_nil, if_neg (List.cons_ne_nil r rs)]
      rw [max_assoc, max_self]

lemma maxLen_all_eq (rows : List (List String)) (k : Nat)
    (h : ∀ r ∈ rows, r.length = k) (hne : rows ≠ []) : maxLen rows = k := by
  unfold maxLen
  rw [maxLen_aux rows k h 0, if_neg hne]
  exact Nat.zero_max k

lemma foldl_max_le_self (rows : List (List String)) :
    ∀ a, a ≤ rows.foldl (fun m r => max m r.length) a := by
  induction rows with
  | nil => intro a; simp
  | cons r rs ih =>
    intro a
    simp only [List.foldl_cons]
    exact le_trans (le_max_left a r.length) (ih (max a r.length))

lemma le_foldl_max (rows : List (List String)) (r : List String) (hr : r ∈ rows) :
    ∀ a, r.length ≤ rows.foldl (fun m r => max m r.length) a := by
  induction rows with
  | nil => cases hr
  | cons x xs ih =>
    intro a
    rcases List.mem_cons.mp hr with rfl | hmem
    · simp only [List.foldl_cons]
      exact le_trans (le_max_right a r.length) (foldl_max_le_self xs _)
    · simp only [List.foldl_cons]
      exact ih hmem _

lemma le_maxLen (rows : List (List String)) (r : List String) (hr : r ∈ rows) :
    r.length ≤ maxLen rows :=
  le_foldl_max rows r hr 0

/-- Claim-side definition following the words of the specification: trim
only trailing line-terminator characters from the line. -/
def specTrimTrailingEol (cs : List Char) : List Char :=
  (cs.reverse.dropWhile (fun c => c = '\n' || c = '\r')).reverse

/-- Claim-side definition following the words of the specification: the raw
slice of the line, one-based start converted to zero-based, after trimming
only trailing line-terminator characters. -/
def specRawSlice (line : String) (start len : Nat) : String :=
  String.mk (((specTrimTrailingEol line.data).take (start - 1 + len)).drop (start - 1))

/- Concrete schema documents and schemas used to instantiate the theorems. -/

def desDoc : List String :=
  ["Name   Description   Type   Start   Length",
   "AAA   first field   CHAR   1   8"]

def raggedDoc : List String := ["AAA   first   CHAR   1   8", "BB   dd"]

def raggedDoc2 : List String := ["CMDORNUM   id   CHAR   1   8", "DTOFUPDT   upd"]

def padSchema : List FieldSpec := [⟨"F1", "field one", "CHAR", 1, 2⟩]

def sliceSchema : List FieldSpec := [⟨"F2", "field two", "CHAR", 2, 3⟩]

def dateSchema : List FieldSpec := [⟨"D1", "update date", "DATE", 1, 8⟩]

def dupSchema : List FieldSpec :=
  [⟨"X", "first declaration", "CHAR", 1, 2⟩, ⟨"X", "second declaration", "DATE", 3, 2⟩]

/-- C5: preprocess_des_file discards the first parsed row exactly when its
values equal the supplied column names; on a document whose lines all split
into exactly as many fields as there are names, a matching first row yields
one fewer row than total lines and a non-matching first row keeps all rows. -/
theorem preprocess_des_file_header (lines : List String) (sep : Char)
    (names : List String) (l0 : String) (rest : List String)
    (hl : lines = l0 :: rest)
    (hw : ∀ l ∈ lines, (parseDesLine sep l).length = names.length) :
    preprocess_des_file lines sep names =
      Except.ok
        (if parseDesLine sep l0 = names
         then rest.map (fun l => (parseDesLine sep l).map Option.some)
         else (parseDesLine sep l0).map Option.some ::
              rest.map (fun l => (parseDesLine sep l).map Option.some)) := by
  subst hl
  have hmax : maxLen ((l0 :: rest).map (parseDesLine sep)) = names.length := by
    apply maxLen_all_eq _ _ ?_ (by simp)
    intro r hr
    rcases List.mem_map.mp hr with ⟨l, hlm, rfl⟩
    exact hw l hlm
  have hpad : ∀ l ∈ l0 :: rest,
      padTo names.length (parseDesLine sep l) = (parseDesLine sep l).map Option.some := by
    intro l hlm
    unfold padTo
    rw [hw l hlm, Nat.sub_self]
    simp
  unfold preprocess_des_file
  simp only [List.map_cons]
  rw [show maxLen (parseDesLine sep l0 :: rest.map (parseDesLine sep)) = names.length from
    (by simpa using hmax), if_pos rfl]
  rw [hpad l0 (List.mem_cons_self _ _)]
  have hrest : (rest.map (parseDesLine sep)).map (padTo names.length) =
      rest.map (fun l => (parseDesLine sep l).map Option.some) := by
    rw [List.map_map]
    apply List.map_congr_left
    intro l hlm
    exact hpad l (List.mem_cons_of_mem _ hlm)
  rw [hrest]
  have hiff : ((parseDesLine sep l0).map Option.some = names.map Option.some) ↔
      (parseDesLine sep l0 = names) :=
    (List.map_injective_iff.mpr (Option.some_injective String)).eq_iff
  by_cases hc : parseDesLine sep l0 = names
  · rw [if_pos (hiff.mpr hc), if_pos hc]
  · rw [if_neg (fun hh => hc (hiff.mp hh)), if_neg hc]

/-- C5 witness: a two-line document whose first line is the literal header
parses to a single data row, one fewer than the line count. -/
theorem preprocess_des_file_header_witness :
    preprocess_des_file desDoc '|' desNames =
      Except.ok [[some "AAA", some "first field", some "CHAR", some "1", some "8"]] :=
  (preprocess_des_file_header desDoc '|' desNames
      "Name   Description   Type   Start   Length"
      ["AAA   first field   CHAR   1   8"] rfl (by decide)).trans (by rfl)

/-- C6 counterexample: a document containing a line that splits into two
fields instead of five does not fail; the short row is silently padded with
null markers and retained, contrary to the claimed MalformedSchemaError. -/
theorem preprocess_des_file_no_error_cex :
    (parseDesLine '|' "BB   dd").length ≠ desNames.length ∧
    preprocess_des_file raggedDoc '|' desNames =
      Except.ok [[some "AAA", some "first", some "CHAR", some "1", some "8"],
                 [some "BB", some "dd", none, none, none]] :=
  ⟨by decide, by rfl⟩

/-- C6 amended: a line splitting into fewer fields than field_names does not
make the parse fail: whenever the maximum field count across the lines of a
nonempty document equals the number of names, parsing succeeds, every
retained row is padded with null markers to exactly the names width, and the
short rows are kept rather than rejected. -/
theorem preprocess_des_file_pads (lines : List String) (sep : Char)
    (names : List String) (l0 : String) (rest : List String)
    (hl : lines = l0 :: rest)
    (hm : maxLen (lines.map (parseDesLine sep)) = names.length) :
    preprocess_des_file lines sep names = Except.ok (desRows lines sep names) ∧
    ∀ r ∈ desRows lines sep names, r.length = names.length := by
  subst hl
  constructor
  · unfold preprocess_des_file desRows
    simp only [List.map_cons]
    rw [show maxLen (parseDesLine sep l0 :: rest.map (parseDesLine sep)) = names.length from
      (by simpa using hm), if_pos rfl]
    rw [List.map_map]
    by_cases hh : padTo names.length (parseDesLine sep l0) = List.map Option.some names
    · rw [if_pos hh, if_pos hh]
      rfl
    · rw [if_neg hh, if_neg hh]
      rfl
  · intro r hr
    have hlen : ∀ l ∈ l0 :: rest,
        (padTo names.length (parseDesLine sep l)).length = names.length := by
      intro l hlm
      have hle : (parseDesLine sep l).length ≤ names.length := by
        rw [← hm]
        exact le_maxLen _ _ (List.mem_map.mpr ⟨l, hlm, rfl⟩)
      unfold padTo
      rw [List.length_append, List.length_map, List.length_replicate]
      omega
    unfold desRows at hr
    simp only [List.map_cons] at hr
    by_cases hh : padTo names.length (parseDesLine sep l0) = names.map Option.some
    · rw [if_pos hh] at hr
      rcases List.mem_map.mp hr with ⟨l, hlm, rfl⟩
      exact hlen l (List.mem_cons_of_mem _ hlm)
    · rw [if_neg hh] at hr
      rcases List.mem_cons.mp hr with rfl | hr2
      · exact hlen l0 (List.mem_cons_self _ _)
      · rcases List.mem_map.mp hr2 with ⟨l, hlm, rfl⟩
        exact hlen l (List.mem_cons_of_mem _ hlm)

/-- C6 amended witness: a document whose second line splits into two fields
parses successfully, padding that row with three null markers. -/
theorem preprocess_des_file_pads_witness :
    preprocess_des_file raggedDoc2 '|' desNames =
      Except.ok (desRows raggedDoc2 '|' desNames) ∧
    desRows raggedDoc2 '|' desNames =
      [[some "CMDORNUM", some "id", some "CHAR", some "1", some "8"],
       [some "DTOFUPDT", some "upd", none, none, none]] :=
  ⟨(preprocess_des_file_pads raggedDoc2 '|' desNames
      "CMDORNUM   id   CHAR   1   8" ["DTOFUPDT   upd"] rfl (by decide)).1, by decide⟩

/-- C7 counterexample: on the line made of a space followed by the letter A,
with a field starting at offset one with length two, the decoder stores the
value A, while the slice of the line trimmed only of trailing
line-terminator characters is the space followed by A; the code strips
leading whitespace as well, so the claim fails. -/
theorem decode_raw_slice_cex :
    dictLookup (decodeLine padSchema [] true " A") "F1" = some (Value.str "A") ∧
    specRawSlice " A" 1 2 = " A" ∧
    ¬ (Value.str "A" = Value.str " A") := by decide

/-- C7 amended: for a field that is not a date field, or when date fixing is
off, the decoded value is the raw slice of the line after stripping leading
and trailing whitespace from the whole line (the Python strip method), the
slice content itself being preserved exactly. -/
theorem decode_raw_slice (schema : List FieldSpec) (dt : List (String × String))
    (fix_dates : Bool) (line : String) (n : String) (f : FieldSpec)
    (hf : (schema.filter (fun g => g.name = n)).getLast? = some f)
    (hnd : dt.any (fun p => p.1 = f.name) = false ∨ fix_dates = false) :
    dictLookup (decodeLine schema dt fix_dates line) n =
      some (Value.str (rawSlice line f)) := by
  have h2 : dictLookup (decodeLine schema dt fix_dates line) n =
      ((schema.filter (fun g => g.name = n)).getLast?).map (decodeValue dt fix_dates line) :=
    dictOfFold_lookup (decodeValue dt fix_dates line) schema n
  rw [h2, hf, Option.map_some']
  unfold decodeValue
  rcases hnd with h1 | h1
  · rw [h1]
    simp
  · rw [h1]
    simp

/-- C7 amended witness: slicing the line 0A BC 7 for a field starting at
offset two with length three yields the value A space B, embedded space and
surrounding characters preserved. -/
theorem decode_raw_slice_witness :
    dictLookup (decodeLine sliceSchema [] true "0A BC 7") "F2" =
      some (Value.str "A B") :=
  (decode_raw_slice sliceSchema [] true "0A BC 7" "F2" ⟨"F2", "field two", "CHAR", 2, 3⟩
      (by decide) (Or.inl (by decide))).trans (by decide)

/-- C8: for a field classified as a date field with date fixing on, the
decoded value is the date coercion of the raw slice: a calendar date when
the external parser succeeds and the null marker when it fails, never an
exception; in particular the eight-digit slice 20230115 parses to the
date 2023-01-15 and the slice XXXXXXXX parses to none. -/
theorem decode_date_fields (schema : List FieldSpec) (dt : List (String × String))
    (line : String) (n : String) (f : FieldSpec)
    (hf : (schema.filter (fun g => g.name = n)).getLast? = some f)
    (hdt : dt.any (fun p => p.1 = f.name) = true) :
    dictLookup (decodeLine schema dt true line) n =
      some (coercedDate (pd_to_datetime_date (rawSlice line f))) ∧
    pd_to_datetime_date "20230115" = some ⟨2023, 1, 15⟩ ∧
    pd_to_datetime_date "XXXXXXXX" = none := by
  refine ⟨?_, by decide, by decide⟩
  have h2 : dictLookup (decodeLine schema dt true line) n =
      ((schema.filter (fun g => g.name = n)).getLast?).map (decodeValue dt true line) :=
    dictOfFold_lookup (decodeValue dt true line) schema n
  rw [h2, hf, Option.map_some']
  unfold decodeValue
  rw [hdt]
  simp

/-- C8 witness: decoding the line 20230115 under a DATE-typed field yields
the calendar date 2023-01-15, and decoding XXXXXXXX yields the null marker,
with the date dictionary built by get_date_cols itself. -/
theorem decode_date_fields_witness :
    dictLookup (decodeLine dateSchema (get_date_cols dateSchema "DATE") true "20230115")
        "D1" = some (Value.date ⟨2023, 1, 15⟩) ∧
    dictLookup (decodeLine dateSchema (get_date_cols dateSchema "DATE") true "XXXXXXXX")
        "D1" = some Value.null :=
  ⟨((decode_date_fields dateSchema (get_date_cols dateSchema "DATE") "20230115" "D1"
      ⟨"D1", "update date", "DATE", 1, 8⟩ (by decide) (by decide)).1).trans (by decide),
   ((decode_date_fields dateSchema (get_date_cols dateSchema "DATE") "XXXXXXXX" "D1"
      ⟨"D1", "update date", "DATE", 1, 8⟩ (by decide) (by decide)).1).trans (by decide)⟩

/-- C10: when several schema rows share a field name, the decoded record has
exactly one entry under that name, holding the value of the last such row in
schema order, and the name-to-type dictionary of the date classifier also
keeps only the last declared type. -/
theorem decode_duplicate_names (schema : List FieldSpec) (dt : List (String × String))
    (fix_dates : Bool) (line : String) (n : String) (f : FieldSpec)
    (hf : (schema.filter (fun g => g.name = n)).getLast? = some f) :
    dictLookup (decodeLine schema dt fix_dates line) n =
      some (decodeValue dt fix_dates line f) ∧
    ((decodeLine schema dt fix_dates line).map Prod.fst).count n = 1 ∧
    dictLookup (typesDict schema) n = some f.ftype := by
  have h1 : dictLookup (decodeLine schema dt fix_dates line) n =
      some (decodeValue dt fix_dates line f) := by
    have h2 : dictLookup (decodeLine schema dt fix_dates line) n =
        ((schema.filter (fun g => g.name = n)).getLast?).map (decodeValue dt fix_dates line) :=
      dictOfFold_lookup (decodeValue dt fix_dates line) schema n
    rw [h2, hf, Option.map_some']
  refine ⟨h1, ?_, ?_⟩
  · have hnd : ((decodeLine schema dt fix_dates line).map Prod.fst).Nodup :=
      foldDict_keys_nodup (decodeValue dt fix_dates line) schema [] (by simp)
    have hmem : n ∈ (decodeLine schema dt fix_dates line).map Prod.fst :=
      mem_keys_of_lookup _ _ _ h1
    exact List.count_eq_one_of_mem hnd hmem
  · have h3 : dictLookup (typesDict schema) n =
        ((schema.filter (fun g => g.name = n)).getLast?).map (fun g : FieldSpec => g.ftype) :=
      dictOfFold_lookup (fun g : FieldSpec => g.ftype) schema n
    rw [h3, hf, Option.map_some']

/-- C10 witness: a schema declaring the name X twice decodes the line ABCD
to a record with the single entry CD taken from the second declaration, and
the date classifier dictionary keeps the later DATE type. -/
theorem decode_duplicate_names_witness :
    dictLookup (decodeLine dupSchema [] false "ABCD") "X" = some (Value.str "CD") ∧
    ((decodeLine dupSchema [] false "ABCD").map Prod.fst).count "X" = 1 ∧
    dictLookup (typesDict dupSchema) "X" = some "DATE" := by
  have h := decode_duplicate_names dupSchema [] false "ABCD" "X"
    ⟨"X", "second declaration", "DATE", 3, 2⟩ (by decide)
  exact ⟨h.1.trans (by decide), h.2.1, h.2.2.trans (by decide)⟩

end NCDACdb
